import Mathlib

/-!
# Verification of the `gmsc` tokenizer (src/parser/lexer.cpp)

A shallow embedding of the lexer of this repository.  The source text is a
`List Char`; the C++ string iterator `_it` becomes a natural-number index; the
member variables of class `Lexer` become fields of a `Lexer` structure that is
threaded explicitly.  `LexerException` throws become `Except.error` results.
The tail self-call of `readtok` after a block comment, and every scanning
loop, take a fuel argument so that all definitions are structurally recursive
and computable; fuel adequacy (a concrete fuel bound on which no computation
runs out) is proved below as the termination theorem.
-/

namespace Gmsc

/-- Token kinds, as used by `lexer.cpp` (enum `TokenType` of the repository;
the constructors are the ones named in the source file, plus the
value-carrying and end-of-input kinds it emits). -/
inductive TokenType where
  | LineFeed | End
  | NotEqual | Inferior | InferiorEqual | Superior | SuperiorEqual
  | BraceLeft | BraceRight | ParenthesisLeft | ParenthesisRight
  | Dot | Comma | Semicolon
  | LogicAnd | LogicOr | LogicXor
  | AccessorLeftArrayRef | AccessorLeftDSList | AccessorLeftDSMap
  | AccessorLeftDSGrid | AccessorLeftArrayValue | AccessorRight
  | Increment | Decrement
  | AssignAdd | AssignSubtract | AssignMultiply | AssignDivide
  | AssignAnd | AssignOr | AssignXor | AssignShiftLeft | AssignShiftRight
  | DEqual | Equal
  | Plus | Minus | Multiply | Divide
  | EuclDivide | EuclModulo
  | BitAnd | BitOr | BitXor
  | If | ElseIf | Else | For | While | Do | Repeat | With | LocalVar
  | StringLiteral | RealLiteral | Identifier
  deriving DecidableEq, Repr

/-- A token: kind plus the line/column recorded at emission
(`Token{type, line, col}` in the source). -/
structure Token where
  type : TokenType
  line : Nat
  col : Nat
  deriving DecidableEq, Repr

/-- The fatal errors (`LexerException`) raised by `lexer.cpp`, by the message
they carry: `eofCrash` is "Reached EOF (lexer crash)" (readchar called after
the sentinel), `unterminatedComment` is "Multi-line comment reaches EOF",
`hexStub` is "Hex colors are a stub", `unknownToken` is "Unknown token".
Each carries the line and column passed to the exception. -/
inductive LexErr where
  | eofCrash (line col : Nat)
  | unterminatedComment (line col : Nat)
  | hexStub (line col : Nat)
  | unknownToken (line col : Nat)
  deriving DecidableEq, Repr

/-- The lexer state: `source` is `_source`, `it` the offset of the iterator
`_it` from `begin(_source)`, and the remaining fields are the members
`_last_char`, `_line`, `_col`, `_current_parsed`, `_last_value`,
`_last_token` of class `Lexer`. -/
structure Lexer where
  source : List Char
  it : Nat
  last_char : Char
  line : Nat
  col : Nat
  current_parsed : Bool
  last_value : List Char
  last_token : Token
  deriving DecidableEq, Repr

/-- `Lexer::is_whitespace`. -/
def is_whitespace (c : Char) : Bool := c = ' ' || c = '\t'

/-- `Lexer::is_line_end`. -/
def is_line_end (c : Char) : Bool := c = '\n' || c = '\x00'

/-- `Lexer::is_digit`. -/
def is_digit (c : Char) : Bool := '0' ≤ c && c ≤ '9'

/-- `Lexer::is_alpha`. -/
def is_alpha (c : Char) : Bool := ('a' ≤ c && c ≤ 'z') || ('A' ≤ c && c ≤ 'Z')

/-- `Lexer::is_numeral`. -/
def is_numeral (c : Char) : Bool := is_digit c || c = '.'

/-- `Lexer::is_alphanum`. -/
def is_alphanum (c : Char) : Bool := is_digit c || is_alpha c

/-- `Lexer::is_identifier_begin`. -/
def is_identifier_begin (c : Char) : Bool := is_alpha c || c = '_'

/-- `Lexer::is_identifier`. -/
def is_identifier (c : Char) : Bool := is_alphanum c || c = '_'

/-- `Lexer::eof`: the end-of-input sentinel has been observed. -/
def Lexer.eof (s : Lexer) : Bool := s.last_char = '\x00'

/-- `Lexer::basic_matches`: the ordered pattern table (lower index = higher
priority), verbatim from lexer.cpp lines 11-83. -/
def basic_matches : List (List Char × TokenType) :=
  [("\n".data, .LineFeed),

   ("!=".data, .NotEqual),
   ("<>".data, .NotEqual),
   ("<".data, .Inferior),
   ("<=".data, .InferiorEqual),
   (">".data, .Superior),
   (">=".data, .SuperiorEqual),

   ("\x7b".data, .BraceLeft),
   ("\x7d".data, .BraceRight),
   ("(".data, .ParenthesisLeft),
   (")".data, .ParenthesisRight),

   (".".data, .Dot),
   (",".data, .Comma),
   (";".data, .Semicolon),

   ("&&".data, .LogicAnd),
   ("||".data, .LogicOr),
   ("^^".data, .LogicXor),

   ("[@".data, .AccessorLeftArrayRef),
   ("[|".data, .AccessorLeftDSList),
   ("[?".data, .AccessorLeftDSMap),
   ("[#".data, .AccessorLeftDSGrid),
   ("[".data, .AccessorLeftArrayValue),
   ("]".data, .AccessorRight),

   ("++".data, .Increment),
   ("--".data, .Decrement),

   ("+=".data, .AssignAdd),
   ("-=".data, .AssignSubtract),
   ("*=".data, .AssignMultiply),
   ("/=".data, .AssignDivide),
   ("&=".data, .AssignAnd),
   ("|=".data, .AssignOr),
   ("^=".data, .AssignXor),

   ("<<=".data, .AssignShiftLeft),
   (">>=".data, .AssignShiftRight),

   ("==".data, .DEqual),
   ("=".data, .Equal),

   ("+".data, .Plus),
   ("-".data, .Minus),
   ("*".data, .Multiply),
   ("/".data, .Divide),

   ("div".data, .EuclDivide),
   ("mod".data, .EuclModulo),
   ("%".data, .EuclModulo),

   ("&".data, .BitAnd),
   ("|".data, .BitOr),
   ("^".data, .BitXor),

   ("if".data, .If),
   ("else if".data, .ElseIf),
   ("else".data, .Else),

   ("for".data, .For),
   ("while".data, .While),
   ("do".data, .Do),
   ("repeat".data, .Repeat),
   ("with".data, .With),

   ("var".data, .LocalVar)]

/-- `Lexer::readchar` (lexer.cpp lines 134-157).  Throws the
"Reached EOF (lexer crash)" exception if the sentinel was already observed.
Otherwise `_last_char = *_it`; when `_it == end(_source)` the dereference
yields the null terminator of `std::string` and the function returns without
advancing or updating line/col; else the iterator advances and a consumed
line feed increments `_line` and zeroes `_col` while any other character
increments `_col`. -/
def readchar (s : Lexer) : Except LexErr (Char × Lexer) :=
  if s.last_char = '\x00' then
    .error (.eofCrash s.line s.col)
  else if h : s.it < s.source.length then
    let c := s.source.get ⟨s.it, h⟩
    .ok (c, { s with
                last_char := c,
                it := s.it + 1,
                line := if c = '\n' then s.line + 1 else s.line,
                col := if c = '\n' then 0 else s.col + 1 })
  else
    .ok ('\x00', { s with last_char := '\x00' })

/-- Append one character to `_last_value` (`_last_value += c`). -/
def pushVal (s : Lexer) (c : Char) : Lexer :=
  { s with last_value := s.last_value ++ [c] }

/-- `_last_value.clear()`. -/
def clearVal (s : Lexer) : Lexer := { s with last_value := [] }

/-- Build the token and record it in `_last_token`
(`return _last_token = Token{ty, l, c}`). -/
def emit (s : Lexer) (ty : TokenType) (l c : Nat) : Token × Lexer :=
  (⟨ty, l, c⟩, { s with last_token := ⟨ty, l, c⟩ })

/-- The whitespace loop of `readtok` (lines 174-179):
`while (is_whitespace(_last_char)) { readchar(); if (eof()) ... }`.
Returns the state after the loop; the caller emits End if the sentinel was
hit (the in-loop early return uses the same current line/col).  Fueled. -/
def skipWs : Nat → Lexer → Option (Except LexErr Lexer)
  | 0, _ => none
  | fuel + 1, s =>
    if is_whitespace s.last_char then
      match readchar s with
      | .error e => some (.error e)
      | .ok (c, s1) => if c = '\x00' then some (.ok s1) else skipWs fuel s1
    else
      some (.ok s)

/-- The single-line comment loop (line 188):
`while (!is_line_end(readchar()));`.  Fueled. -/
def skipLine : Nat → Lexer → Option (Except LexErr Lexer)
  | 0, _ => none
  | fuel + 1, s =>
    match readchar s with
    | .error e => some (.error e)
    | .ok (c, s1) => if is_line_end c then some (.ok s1) else skipLine fuel s1

/-- The inner loop of the block-comment scanner (lines 195-199):
`while (readchar() != '*') { if (eof()) throw UnterminatedComment; }`.
`tl`/`tc` are `tline`/`tcol`, the position where the token scan started. -/
def scanStar : Nat → Nat → Nat → Lexer → Option (Except LexErr Lexer)
  | 0, _, _, _ => none
  | fuel + 1, tl, tc, s =>
    match readchar s with
    | .error e => some (.error e)
    | .ok (c, s1) =>
      if c = '*' then some (.ok s1)
      else if s1.last_char = '\x00' then some (.error (.unterminatedComment tl tc))
      else scanStar fuel tl tc s1

/-- The block-comment scanner (lines 194-200):
`do { inner } while (readchar() != '/');`. Fueled. -/
def scanComment : Nat → Nat → Nat → Lexer → Option (Except LexErr Lexer)
  | 0, _, _, _ => none
  | fuel + 1, tl, tc, s =>
    match scanStar (fuel + 1) tl tc s with
    | none => none
    | some (.error e) => some (.error e)
    | some (.ok s1) =>
      match readchar s1 with
      | .error e => some (.error e)
      | .ok (c, s2) => if c = '/' then some (.ok s2) else scanComment fuel tl tc s2

/-- Outcome of the string-literal loop: the closing delimiter recurred, or
end-of-input was reached while reading the character after a backslash
(the early `return Token{End, tline, tcol}` of line 218). -/
inductive StrOut where
  | closed
  | eofTok
  deriving DecidableEq, Repr

/-- The string-literal loop (lines 212-236):
`while (readchar() != delim) { ... }` with the escape rules of the body:
backslash+delim appends the delimiter, backslash+n a line feed, backslash+#
a literal #, any other backslash+c the two characters; a raw # appends a
line feed; any other character (including the null read at end-of-input) is
appended verbatim.  Fueled. -/
def scanString : Nat → Char → Lexer → Option (Except LexErr (StrOut × Lexer))
  | 0, _, _ => none
  | fuel + 1, delim, s =>
    match readchar s with
    | .error e => some (.error e)
    | .ok (c, s1) =>
      if c = delim then some (.ok (.closed, s1))
      else if c = '\\' then
        match readchar s1 with
        | .error e => some (.error e)
        | .ok (c2, s2) =>
          if s2.last_char = '\x00' then some (.ok (.eofTok, s2))
          else if c2 = delim then scanString fuel delim (pushVal s2 delim)
          else if c2 = 'n' then scanString fuel delim (pushVal s2 '\n')
          else if c2 = '#' then scanString fuel delim (pushVal s2 '#')
          else scanString fuel delim (pushVal (pushVal s2 '\\') c2)
      else if c = '#' then scanString fuel delim (pushVal s1 '\n')
      else scanString fuel delim (pushVal s1 c)

/-- The real-literal loop (lines 264-266):
`do { _last_value += _last_char; } while (is_numeral(readchar()));`. -/
def scanNum : Nat → Lexer → Option (Except LexErr Lexer)
  | 0, _ => none
  | fuel + 1, s =>
    match readchar (pushVal s s.last_char) with
    | .error e => some (.error e)
    | .ok (c, s2) => if is_numeral c then scanNum fuel s2 else some (.ok s2)

/-- The identifier loop (lines 276-278):
`do { _last_value += _last_char; } while (is_identifier(readchar()));`. -/
def scanIdent : Nat → Lexer → Option (Except LexErr Lexer)
  | 0, _ => none
  | fuel + 1, s =>
    match readchar (pushVal s s.last_char) with
    | .error e => some (.error e)
    | .ok (c, s2) => if is_identifier c then scanIdent fuel s2 else some (.ok s2)

/-- The lookahead window of line 246:
`_source.substr(_it - begin(_source) - 1, 4)`. -/
def peekstr (s : Lexer) : List Char := (s.source.drop (s.it - 1)).take 4

/-- The table scan of lines 247-256: first entry whose pattern equals the
corresponding prefix of the lookahead (`peekstr.substr(0, pat.size()) ==
pat` is exactly list-prefix equality, since `substr` clamps). -/
def findMatch (peek : List Char) : Option (List Char × TokenType) :=
  basic_matches.find? (fun e => e.1.isPrefixOf peek)

/-- The cursor advance of lines 251-252:
`for (j = 1; j < pat.size(); ++j) readchar();` — consume `k = pat.size()-1`
further characters. -/
def consumeN : Nat → Lexer → Except LexErr Lexer
  | 0, s => .ok s
  | k + 1, s =>
    match readchar s with
    | .error e => .error e
    | .ok (_, s1) => consumeN k s1

/-- Lines 207-284 of `readtok`: everything after the comment handling, which
the control flow falls through to from three places (no slash seen, a slash
followed by neither `/` nor `*`, and return from a single-line comment).
`tl`/`tc` are the `tline`/`tcol` captured at line 181. -/
def dispatch (fuel : Nat) (tl tc : Nat) (s : Lexer) :
    Option (Except LexErr (Token × Lexer)) :=
  if s.last_char = '"' || s.last_char = '\'' then
    -- parse string literals (lines 207-238); delim = _last_char (line 210)
    match scanString fuel s.last_char (clearVal s) with
    | none => none
    | some (.error e) => some (.error e)
    | some (.ok (.closed, s1)) => some (.ok (emit s1 .StringLiteral tl tc))
    | some (.ok (.eofTok, s1)) => some (.ok (emit s1 .End tl tc))
  else if s.last_char = '$' then
    -- hex colors are a stub (lines 241-244)
    some (.error (.hexStub tl tc))
  else
    match findMatch (peekstr s) with
    | some (pat, ty) =>
      match consumeN (pat.length - 1) s with
      | .error e => some (.error e)
      | .ok s1 => some (.ok (emit s1 ty tl tc))
    | none =>
      -- _last_value.clear() (line 258)
      if is_numeral (clearVal s).last_char then
        match scanNum fuel (clearVal s) with
        | none => none
        | some (.error e) => some (.error e)
        | some (.ok s1) =>
          some (.ok (emit { s1 with current_parsed := false } .RealLiteral tl tc))
      else if is_identifier_begin (clearVal s).last_char then
        match scanIdent fuel (clearVal s) with
        | none => none
        | some (.error e) => some (.error e)
        | some (.ok s1) =>
          some (.ok (emit { s1 with current_parsed := false } .Identifier tl tc))
      else
        some (.error (.unknownToken tl tc))

/-- `Lexer::readtok` (lines 159-285).  The fuel argument makes the tail
self-call after a block comment (line 201) and the scanning loops
structurally recursive; `readtok_adequate` below shows a concrete fuel bound
on which the computation never runs out. -/
def readtok : Nat → Lexer → Option (Except LexErr (Token × Lexer))
  | 0, _ => none
  | fuel + 1, s =>
    -- Handle EOF properly (lines 161-162)
    if s.last_char = '\x00' then some (.ok (emit s .End s.line s.col))
    else
      -- skip the character if it is parsed already (lines 164-171)
      match (if s.current_parsed then (readchar s).map Prod.snd
             else .ok { s with current_parsed := true }) with
      | .error e => some (.error e)
      | .ok s1 =>
        if s1.last_char = '\x00' then some (.ok (emit s1 .End s1.line s1.col))
        else
          match skipWs fuel s1 with
          | none => none
          | some (.error e) => some (.error e)
          | some (.ok s2) =>
            if s2.last_char = '\x00' then
              some (.ok (emit s2 .End s2.line s2.col))
            else
              -- tline/tcol of line 181 are s2.line/s2.col from here on
              if s2.last_char = '/' then
                -- check for comments (lines 183-205)
                match readchar s2 with
                | .error e => some (.error e)
                | .ok (c, s3) =>
                  if c = '/' then
                    match skipLine fuel s3 with
                    | none => none
                    | some (.error e) => some (.error e)
                    | some (.ok s4) =>
                      if s4.last_char = '\x00' then
                        some (.ok (emit s4 .End s2.line s2.col))
                      else dispatch fuel s2.line s2.col s4
                  else if c = '*' then
                    match scanComment fuel s2.line s2.col s3 with
                    | none => none
                    | some (.error e) => some (.error e)
                    | some (.ok s4) => readtok fuel s4
                  else
                    dispatch fuel s2.line s2.col { s3 with current_parsed := false }
              else
                dispatch fuel s2.line s2.col s2

/-- Modelled from the spec: the constructor `Lexer::Lexer` and the member
initializers live in lexer.hpp, which is not part of src/.  Per the spec the
cursor starts at the beginning of the buffer with 1-based line tracking
(line 1; column 0 until a character is consumed), the end-of-input sentinel
not yet observed, and no pending unconsumed character (so the driver fetches
one on its first call); the value buffer starts empty. -/
def initLexer (src : List Char) : Lexer :=
  { source := src, it := 0, last_char := ' ', line := 1, col := 0,
    current_parsed := true, last_value := [], last_token := ⟨.End, 1, 0⟩ }

/-- Run `readtok` up to `n` times from state `s`, collecting the kind of each
produced token together with `_last_value` as of that token; stops at an
error or at fuel exhaustion. -/
def lexN (fuel : Nat) : Nat → Lexer → List (TokenType × List Char)
  | 0, _ => []
  | n + 1, s =>
    match readtok fuel s with
    | some (.ok (t, s1)) => (t.type, s1.last_value) :: lexN fuel n s1
    | _ => []

/-- The result of the `(n+1)`-th consecutive `readtok` call starting in
state `s` (each call with the given fuel). -/
def iterTok (fuel : Nat) : Nat → Lexer → Option (Except LexErr (Token × Lexer))
  | 0, s => readtok fuel s
  | n + 1, s =>
    match readtok fuel s with
    | some (.ok (_, s1)) => iterTok fuel n s1
    | r => r

/-- The body of a terminated string literal: the scan consumes `content`
and then stops at the closing delimiter exactly when every character is
ordinary (not the delimiter, a backslash, or the null sentinel) or is a
backslash followed by one more (arbitrary non-null) character. -/
def okContent (delim : Char) : List Char → Bool
  | [] => true
  | c :: rest =>
    if c = '\\' then
      match rest with
      | [] => false
      | c2 :: rest2 => if c2 = '\x00' then false else okContent delim rest2
    else if c = delim then false
    else if c = '\x00' then false
    else okContent delim rest

/-- The decoding mapping the spec states for string literal values
(§4.4): backslash+delimiter gives the delimiter, backslash+`n` a real line
feed, backslash+`#` a literal `#`, any other backslash+character the two
characters verbatim; a raw `#` gives a real line feed; everything else is
kept as-is. -/
def decodeStr (delim : Char) : List Char → List Char
  | [] => []
  | c :: rest =>
    if c = '\\' then
      match rest with
      | [] => [c]
      | c2 :: rest2 =>
        (if c2 = delim then [delim]
         else if c2 = 'n' then ['\n']
         else if c2 = '#' then ['#']
         else ['\\', c2]) ++ decodeStr delim rest2
    else if c = '#' then '\n' :: decodeStr delim rest
    else c :: decodeStr delim rest

/-! ## Theorems -/

/-! ### Helper lemmas about single steps of the cursor -/

/-- `readchar` when a character is available: it is consumed. -/
theorem readchar_drop_cons (s : Lexer) (c : Char) (l : List Char)
    (h1 : s.last_char ≠ '\x00') (h2 : s.source.drop s.it = c :: l) :
    ∃ s', readchar s = .ok (c, s') ∧ s'.last_char = c ∧
      s'.source = s.source ∧ s'.it = s.it + 1 ∧
      s'.source.drop s'.it = l ∧
      s'.last_value = s.last_value ∧ s'.current_parsed = s.current_parsed ∧
      s'.line = (if c = '\n' then s.line + 1 else s.line) ∧
      s'.col = (if c = '\n' then 0 else s.col + 1) := by
  have hlt : s.it < s.source.length := by
    by_contra hge
    rw [List.drop_eq_nil_of_le (Nat.le_of_not_lt hge)] at h2
    exact List.cons_ne_nil _ _ h2.symm
  have hd := List.drop_eq_getElem_cons hlt
  rw [hd] at h2
  have hc : s.source[s.it] = c := (List.cons.injEq .. ▸ h2).1
  have hl : s.source.drop (s.it + 1) = l := (List.cons.injEq .. ▸ h2).2
  refine ⟨{ s with
              last_char := c,
              it := s.it + 1,
              line := if c = '\n' then s.line + 1 else s.line,
              col := if c = '\n' then 0 else s.col + 1 },
          ?_, rfl, rfl, rfl, hl, rfl, rfl, rfl, rfl⟩
  unfold readchar
  rw [if_neg h1, dif_pos hlt]
  simp only [List.get_eq_getElem, hc]

/-- `readchar` at the end of the buffer: the sentinel is returned and the
cursor does not move. -/
theorem readchar_drop_nil (s : Lexer)
    (h1 : s.last_char ≠ '\x00') (h2 : s.source.drop s.it = []) :
    readchar s = .ok ('\x00', { s with last_char := '\x00' }) := by
  have hge : ¬ s.it < s.source.length := by
    intro hlt
    rw [List.drop_eq_getElem_cons hlt] at h2
    exact List.cons_ne_nil _ _ h2
  unfold readchar
  rw [if_neg h1, dif_neg hge]

/-- A numeral character is not the sentinel, not whitespace, and not one of
the characters the driver dispatches on before the numeral scanner. -/
theorem is_numeral_facts (c : Char) (h : is_numeral c = true) :
    c ≠ '\x00' ∧ is_whitespace c = false ∧ c ≠ '/' ∧ c ≠ '\"' ∧
      c ≠ '\'' ∧ c ≠ '$' := by
  have hw : is_whitespace c = false := by
    cases hw : is_whitespace c with
    | false => rfl
    | true =>
      simp only [is_whitespace, Bool.or_eq_true, decide_eq_true_eq] at hw
      rcases hw with hw | hw <;> subst hw <;> revert h <;> decide
  refine ⟨?_, hw, ?_, ?_, ?_, ?_⟩ <;>
    · intro he; subst he; revert h; decide

/-- Exiting the whitespace loop immediately on a non-whitespace character. -/
theorem skipWs_no (f : Nat) (s : Lexer) (h : is_whitespace s.last_char = false) :
    skipWs (f + 1) s = some (.ok s) := by
  simp [skipWs, h]

/-- The real-literal loop consumes exactly the maximal run of numeral
characters following the current one and appends the verbatim text to the
value buffer. -/
theorem scanNum_run (l : List Char) : ∀ (f : Nat) (s : Lexer),
    s.source.drop s.it = l → s.last_char ≠ '\x00' →
    (l.takeWhile is_numeral).length < f →
    ∃ s', scanNum f s = some (.ok s') ∧
      s'.last_value = s.last_value ++ s.last_char :: l.takeWhile is_numeral := by
  induction l with
  | nil =>
    intro f s hdrop hne hf
    obtain ⟨f1, rfl⟩ : ∃ f1, f = f1 + 1 := ⟨f - 1, by omega⟩
    have hrc := readchar_drop_nil (pushVal s s.last_char) hne hdrop
    have h0 : is_numeral '\x00' = false := by decide
    refine ⟨{ pushVal s s.last_char with last_char := '\x00' }, ?_, ?_⟩
    · simp [scanNum, hrc, h0]
    · simp [pushVal]
  | cons c l ih =>
    intro f s hdrop hne hf
    obtain ⟨f1, rfl⟩ : ∃ f1, f = f1 + 1 := ⟨f - 1, by omega⟩
    obtain ⟨s2, hrc, hlast, hsrc, hit, hdrop1, hval, hcp, hline, hcol⟩ :=
      readchar_drop_cons (pushVal s s.last_char) c l hne hdrop
    by_cases hc : is_numeral c = true
    · have hne1 : c ≠ '\x00' := (is_numeral_facts c hc).1
      have hfl : (l.takeWhile is_numeral).length < f1 := by
        rw [List.takeWhile_cons, if_pos hc] at hf
        simpa using Nat.lt_of_succ_lt_succ hf
      obtain ⟨s', hs', hv⟩ := ih f1 s2 hdrop1 (hlast ▸ hne1) hfl
      refine ⟨s', ?_, ?_⟩
      · simp [scanNum, hrc, hc, hs']
      · rw [hv, hval, hlast]; simp [pushVal, List.takeWhile_cons, hc]
    · have hcf : is_numeral c = false := by simpa using hc
      refine ⟨s2, by simp [scanNum, hrc, hcf], ?_⟩
      rw [hval]; simp [pushVal, List.takeWhile_cons, hcf]

/-- One `readtok` step from a state in which the sentinel has been observed:
an End token at the current position, only `_last_token` updated. -/
theorem readtok_eof_step (fuel : Nat) (s : Lexer) (h : s.last_char = '\x00') :
    readtok (fuel + 1) s =
      some (.ok (⟨.End, s.line, s.col⟩,
                 { s with last_token := ⟨.End, s.line, s.col⟩ })) := by
  simp [readtok, h, emit]

/-- Driving `readtok` from a fresh lexer on a source that opens with a
quote character into the string-literal scanner. -/
theorem readtok_init_quote (f : Nat) (delim : Char) (rest : List Char)
    (hd : delim = '\"' ∨ delim = '\'') :
    readtok (f + 2) (initLexer (delim :: rest)) =
      (match scanString (f + 1) delim
          (Lexer.mk (delim :: rest) 1 delim 1 1 true [] ⟨.End, 1, 0⟩) with
        | none => none
        | some (.error e) => some (.error e)
        | some (.ok (.closed, s1)) => some (.ok (emit s1 .StringLiteral 1 1))
        | some (.ok (.eofTok, s1)) => some (.ok (emit s1 .End 1 1))) := by
  rcases hd with rfl | rfl <;>
    simp [readtok, readchar, initLexer, dispatch, skipWs_no, clearVal,
      is_whitespace, emit, Except.map]

/-- The string loop at the closing delimiter: one reading step closes the
literal and leaves the value untouched. -/
theorem scanString_at_delim (delim : Char) (rest : List Char) (f : Nat)
    (s : Lexer) (hne : s.last_char ≠ '\x00')
    (hdrop : s.source.drop s.it = delim :: rest) (hf : 1 ≤ f) :
    ∃ s', scanString f delim s = some (.ok (.closed, s')) ∧
      s'.last_value = s.last_value := by
  obtain ⟨f1, rfl⟩ : ∃ f1, f = f1 + 1 := ⟨f - 1, by omega⟩
  obtain ⟨s2, hrc, _, _, _, _, hval, _, _, _⟩ :=
    readchar_drop_cons s delim rest hne hdrop
  exact ⟨s2, by simp [scanString, hrc], hval⟩

/-- Unfolding `okContent` over an escape pair. -/
theorem okContent_cons_bs (delim c2 : Char) (rest2 : List Char)
    (h : okContent delim ('\\' :: c2 :: rest2) = true) :
    c2 ≠ '\x00' ∧ okContent delim rest2 = true := by
  by_cases h0 : c2 = '\x00'
  · subst h0; simp [okContent] at h
  · exact ⟨h0, by simpa [okContent, h0] using h⟩

/-- Unfolding `okContent` over an ordinary character. -/
theorem okContent_cons (delim c : Char) (rest : List Char) (hc : c ≠ '\\')
    (h : okContent delim (c :: rest) = true) :
    c ≠ delim ∧ c ≠ '\x00' ∧ okContent delim rest = true := by
  cases rest with
  | nil =>
    by_cases h1 : c = delim
    · subst h1; simp [okContent, hc] at h
    · by_cases h2 : c = '\x00'
      · subst h2; simp [okContent, hc, h1] at h
      · exact ⟨h1, h2, by simp [okContent]⟩
  | cons c2 rest2 =>
    by_cases h1 : c = delim
    · subst h1; simp [okContent, hc] at h
    · by_cases h2 : c = '\x00'
      · subst h2; simp [okContent, hc, h1] at h
      · exact ⟨h1, h2, by simpa [okContent, hc, h1, h2] using h⟩

/-- The string loop returns the early End outcome when the buffer ends with
a lone backslash: end-of-input is reached while reading the escaped
character (this is the only early-End return of the loop). -/
theorem scanString_bs_at_end (delim : Char) (hd1 : delim ≠ '\\')
    (f : Nat) (s : Lexer) (hne : s.last_char ≠ '\x00')
    (hdrop : s.source.drop s.it = ['\\']) (hf : 1 ≤ f) :
    ∃ s', scanString f delim s = some (.ok (.eofTok, s')) := by
  obtain ⟨f1, rfl⟩ : ∃ f1, f = f1 + 1 := ⟨f - 1, by omega⟩
  obtain ⟨s2, hrc, hlast, _, _, hdrop1, _, _, _, _⟩ :=
    readchar_drop_cons s '\\' [] hne hdrop
  have hne2 : s2.last_char ≠ '\x00' := by rw [hlast]; decide
  have hrc2 := readchar_drop_nil s2 hne2 hdrop1
  refine ⟨{ s2 with last_char := '\x00' }, ?_⟩
  simp [scanString, hrc, hrc2, Ne.symm hd1]

/-- The string loop raises the fatal "Reached EOF (lexer crash)" error when
the buffer runs out with nothing pending: the null read at end-of-input is
appended as an ordinary character and the next `readchar` call finds the
sentinel already observed. -/
theorem scanString_out_of_input (delim : Char) (hd0 : delim ≠ '\x00')
    (f : Nat) (s : Lexer) (hne : s.last_char ≠ '\x00')
    (hdrop : s.source.drop s.it = []) (hf : 2 ≤ f) :
    ∃ l co, scanString f delim s = some (.error (.eofCrash l co)) := by
  obtain ⟨f1, rfl⟩ : ∃ f1, f = f1 + 1 := ⟨f - 1, by omega⟩
  obtain ⟨f2, rfl⟩ : ∃ f2, f1 = f2 + 1 := ⟨f1 - 1, by omega⟩
  have hrc := readchar_drop_nil s hne hdrop
  refine ⟨s.line, s.col, ?_⟩
  have h0 : scanString (f2 + 1) delim
      (pushVal { s with last_char := '\x00' } '\x00') =
      some (.error (.eofCrash s.line s.col)) := by
    simp [scanString, readchar, pushVal]
  conv_lhs => rw [scanString]
  simp only [hrc]
  rw [if_neg (Ne.symm hd0), if_neg (by decide : ('\x00' : Char) ≠ '\\'),
      if_neg (by decide : ('\x00' : Char) ≠ '#')]
  exact h0

/-- On a well-formed interior (escape pairs included) followed by a lone
backslash at end-of-input, the string loop returns the early End outcome:
end-of-input is hit while reading the escaped character. -/
theorem scanString_open_escape (delim : Char)
    (hd1 : delim ≠ '\\') (hd0 : delim ≠ '\x00') :
    ∀ (n : Nat) (content : List Char), content.length ≤ n →
    ∀ (f : Nat) (s : Lexer),
    okContent delim content = true →
    s.last_char ≠ '\x00' →
    s.source.drop s.it = content ++ ['\\'] →
    content.length + 1 < f →
    ∃ s', scanString f delim s = some (.ok (.eofTok, s')) := by
  intro n
  induction n with
  | zero =>
    intro content hlen f s _ hne hdrop hf
    obtain rfl : content = [] := List.eq_nil_of_length_eq_zero (Nat.le_zero.mp hlen)
    exact scanString_bs_at_end delim hd1 f s hne hdrop (by omega)
  | succ n ih =>
    intro content hlen f s hok hne hdrop hf
    match content with
    | [] => exact scanString_bs_at_end delim hd1 f s hne hdrop (by omega)
    | c :: crest =>
      obtain ⟨f1, rfl⟩ : ∃ f1, f = f1 + 1 := ⟨f - 1, by omega⟩
      by_cases hc : c = '\\'
      · subst hc
        match crest with
        | [] => simp [okContent] at hok
        | c2 :: rest2 =>
          obtain ⟨hc2, hok2⟩ := okContent_cons_bs delim c2 rest2 hok
          obtain ⟨s2, hrc, hlast2, _, _, hdrop2, _, _, _, _⟩ :=
            readchar_drop_cons s '\\' (c2 :: rest2 ++ ['\\']) hne
              (by simpa using hdrop)
          obtain ⟨s3, hrc3, hlast3, _, _, hdrop3, _, _, _, _⟩ :=
            readchar_drop_cons s2 c2 (rest2 ++ ['\\'])
              (by rw [hlast2]; decide) hdrop2
          have hne3 : s3.last_char ≠ '\x00' := by rw [hlast3]; exact hc2
          have hlen2 : rest2.length ≤ n := by
            simp only [List.length_cons] at hlen; omega
          have hf2 : rest2.length + 1 < f1 := by
            simp only [List.length_cons] at hf; omega
          by_cases he1 : c2 = delim
          · subst he1
            obtain ⟨s', hs'⟩ := ih rest2 hlen2 f1 (pushVal s3 c2) hok2
                (by rw [pushVal]; exact hne3) hdrop3 hf2
            exact ⟨s', by simp [scanString, hrc, hrc3, Ne.symm hd1, hne3, hs']⟩
          · by_cases he2 : c2 = 'n'
            · subst he2
              obtain ⟨s', hs'⟩ := ih rest2 hlen2 f1 (pushVal s3 '\n') hok2
                  (by rw [pushVal]; exact hne3) hdrop3 hf2
              exact ⟨s', by simp [scanString, hrc, hrc3, Ne.symm hd1, hne3,
                he1, hs']⟩
            · by_cases he3 : c2 = '#'
              · subst he3
                obtain ⟨s', hs'⟩ := ih rest2 hlen2 f1 (pushVal s3 '#') hok2
                    (by rw [pushVal]; exact hne3) hdrop3 hf2
                exact ⟨s', by simp [scanString, hrc, hrc3, Ne.symm hd1, hne3,
                  he1, he2, hs']⟩
              · obtain ⟨s', hs'⟩ := ih rest2 hlen2 f1
                    (pushVal (pushVal s3 '\\') c2) hok2
                    (by rw [pushVal, pushVal]; exact hne3) hdrop3 hf2
                exact ⟨s', by simp [scanString, hrc, hrc3, Ne.symm hd1, hne3,
                  he1, he2, he3, hs']⟩
      · obtain ⟨hcd, hc0, hok2⟩ := okContent_cons delim c crest hc hok
        obtain ⟨s2, hrc, hlast2, _, _, hdrop2, _, _, _, _⟩ :=
          readchar_drop_cons s c (crest ++ ['\\']) hne (by simpa using hdrop)
        have hne2 : s2.last_char ≠ '\x00' := by rw [hlast2]; exact hc0
        have hlen2 : crest.length ≤ n := by
          simp only [List.length_cons] at hlen; omega
        have hf2 : crest.length + 1 < f1 := by
          simp only [List.length_cons] at hf; omega
        by_cases hch : c = '#'
        · subst hch
          obtain ⟨s', hs'⟩ := ih crest hlen2 f1 (pushVal s2 '\n') hok2
              (by rw [pushVal]; exact hne2) hdrop2 hf2
          exact ⟨s', by simp [scanString, hrc, hcd, hc, hs']⟩
        · obtain ⟨s', hs'⟩ := ih crest hlen2 f1 (pushVal s2 c) hok2
              (by rw [pushVal]; exact hne2) hdrop2 hf2
          exact ⟨s', by simp [scanString, hrc, hcd, hc, hch, hs']⟩

/-- On a well-formed interior (escape pairs included) with end-of-input
reached anywhere except immediately after a backslash, the string loop
raises the fatal "Reached EOF (lexer crash)" error. -/
theorem scanString_unterminated (delim : Char)
    (hd1 : delim ≠ '\\') (hd0 : delim ≠ '\x00') :
    ∀ (n : Nat) (content : List Char), content.length ≤ n →
    ∀ (f : Nat) (s : Lexer),
    okContent delim content = true →
    s.last_char ≠ '\x00' →
    s.source.drop s.it = content →
    content.length + 2 < f →
    ∃ l co, scanString f delim s = some (.error (.eofCrash l co)) := by
  intro n
  induction n with
  | zero =>
    intro content hlen f s _ hne hdrop hf
    obtain rfl : content = [] := List.eq_nil_of_length_eq_zero (Nat.le_zero.mp hlen)
    exact scanString_out_of_input delim hd0 f s hne hdrop (by omega)
  | succ n ih =>
    intro content hlen f s hok hne hdrop hf
    match content with
    | [] => exact scanString_out_of_input delim hd0 f s hne hdrop (by omega)
    | c :: crest =>
      obtain ⟨f1, rfl⟩ : ∃ f1, f = f1 + 1 := ⟨f - 1, by omega⟩
      by_cases hc : c = '\\'
      · subst hc
        match crest with
        | [] => simp [okContent] at hok
        | c2 :: rest2 =>
          obtain ⟨hc2, hok2⟩ := okContent_cons_bs delim c2 rest2 hok
          obtain ⟨s2, hrc, hlast2, _, _, hdrop2, _, _, _, _⟩ :=
            readchar_drop_cons s '\\' (c2 :: rest2) hne (by simpa using hdrop)
          obtain ⟨s3, hrc3, hlast3, _, _, hdrop3, _, _, _, _⟩ :=
            readchar_drop_cons s2 c2 rest2 (by rw [hlast2]; decide) hdrop2
          have hne3 : s3.last_char ≠ '\x00' := by rw [hlast3]; exact hc2
          have hlen2 : rest2.length ≤ n := by
            simp only [List.length_cons] at hlen; omega
          have hf2 : rest2.length + 2 < f1 := by
            simp only [List.length_cons] at hf; omega
          by_cases he1 : c2 = delim
          · subst he1
            obtain ⟨l, co, hs'⟩ := ih rest2 hlen2 f1 (pushVal s3 c2) hok2
                (by rw [pushVal]; exact hne3) hdrop3 hf2
            exact ⟨l, co, by simp [scanString, hrc, hrc3, Ne.symm hd1, hne3, hs']⟩
          · by_cases he2 : c2 = 'n'
            · subst he2
              obtain ⟨l, co, hs'⟩ := ih rest2 hlen2 f1 (pushVal s3 '\n') hok2
                  (by rw [pushVal]; exact hne3) hdrop3 hf2
              exact ⟨l, co, by simp [scanString, hrc, hrc3, Ne.symm hd1, hne3,
                he1, hs']⟩
            · by_cases he3 : c2 = '#'
              · subst he3
                obtain ⟨l, co, hs'⟩ := ih rest2 hlen2 f1 (pushVal s3 '#') hok2
                    (by rw [pushVal]; exact hne3) hdrop3 hf2
                exact ⟨l, co, by simp [scanString, hrc, hrc3, Ne.symm hd1, hne3,
                  he1, he2, hs']⟩
              · obtain ⟨l, co, hs'⟩ := ih rest2 hlen2 f1
                    (pushVal (pushVal s3 '\\') c2) hok2
                    (by rw [pushVal, pushVal]; exact hne3) hdrop3 hf2
                exact ⟨l, co, by simp [scanString, hrc, hrc3, Ne.symm hd1, hne3,
                  he1, he2, he3, hs']⟩
      · obtain ⟨hcd, hc0, hok2⟩ := okContent_cons delim c crest hc hok
        obtain ⟨s2, hrc, hlast2, _, _, hdrop2, _, _, _, _⟩ :=
          readchar_drop_cons s c crest hne hdrop
        have hne2 : s2.last_char ≠ '\x00' := by rw [hlast2]; exact hc0
        have hlen2 : crest.length ≤ n := by
          simp only [List.length_cons] at hlen; omega
        have hf2 : crest.length + 2 < f1 := by
          simp only [List.length_cons] at hf; omega
        by_cases hch : c = '#'
        · subst hch
          obtain ⟨l, co, hs'⟩ := ih crest hlen2 f1 (pushVal s2 '\n') hok2
              (by rw [pushVal]; exact hne2) hdrop2 hf2
          exact ⟨l, co, by simp [scanString, hrc, hcd, hc, hs']⟩
        · obtain ⟨l, co, hs'⟩ := ih crest hlen2 f1 (pushVal s2 c) hok2
              (by rw [pushVal]; exact hne2) hdrop2 hf2
          exact ⟨l, co, by simp [scanString, hrc, hcd, hc, hch, hs']⟩

/-- Unfolding `decodeStr` over an escape pair. -/
theorem decodeStr_bs (delim c2 : Char) (rest2 : List Char) :
    decodeStr delim ('\\' :: c2 :: rest2) =
      (if c2 = delim then [delim]
       else if c2 = 'n' then ['\n']
       else if c2 = '#' then ['#']
       else ['\\', c2]) ++ decodeStr delim rest2 := by
  simp [decodeStr]

/-- Unfolding `decodeStr` over an ordinary character. -/
theorem decodeStr_cons (delim c : Char) (rest : List Char) (hc : c ≠ '\\') :
    decodeStr delim (c :: rest) =
      (if c = '#' then '\n' :: decodeStr delim rest
       else c :: decodeStr delim rest) := by
  cases rest <;> simp [decodeStr, hc]

/-- The string loop on a well-formed terminated literal: the closing
delimiter is found and the value receives exactly the decoded content. -/
theorem scanString_closed (delim : Char)
    (hd1 : delim ≠ '\\') (hd0 : delim ≠ '\x00') :
    ∀ (n : Nat) (content : List Char), content.length ≤ n →
    ∀ (rest : List Char) (f : Nat) (s : Lexer),
    okContent delim content = true →
    s.last_char ≠ '\x00' →
    s.source.drop s.it = content ++ delim :: rest →
    content.length + 1 ≤ f →
    ∃ s', scanString f delim s = some (.ok (.closed, s')) ∧
      s'.last_value = s.last_value ++ decodeStr delim content := by
  intro n
  induction n with
  | zero =>
    intro content hlen rest f s _ hne hdrop hf
    obtain rfl : content = [] := List.eq_nil_of_length_eq_zero (Nat.le_zero.mp hlen)
    obtain ⟨s', h1, h2⟩ := scanString_at_delim delim rest f s hne hdrop (by omega)
    exact ⟨s', h1, by simp [decodeStr, h2]⟩
  | succ n ih =>
    intro content hlen rest f s hok hne hdrop hf
    match content with
    | [] =>
      obtain ⟨s', h1, h2⟩ := scanString_at_delim delim rest f s hne hdrop (by omega)
      exact ⟨s', h1, by simp [decodeStr, h2]⟩
    | c :: crest =>
      obtain ⟨f1, rfl⟩ : ∃ f1, f = f1 + 1 := ⟨f - 1, by omega⟩
      by_cases hc : c = '\\'
      · subst hc
        match crest with
        | [] => simp [okContent] at hok
        | c2 :: rest2 =>
          obtain ⟨hc2, hok2⟩ := okContent_cons_bs delim c2 rest2 hok
          obtain ⟨s2, hrc, hlast2, _, _, hdrop2, hval2, _, _, _⟩ :=
            readchar_drop_cons s '\\' (c2 :: rest2 ++ delim :: rest) hne
              (by simpa using hdrop)
          obtain ⟨s3, hrc3, hlast3, _, _, hdrop3, hval3, _, _, _⟩ :=
            readchar_drop_cons s2 c2 (rest2 ++ delim :: rest)
              (by rw [hlast2]; decide) hdrop2
          have hne3 : s3.last_char ≠ '\x00' := by rw [hlast3]; exact hc2
          have hlen2 : rest2.length ≤ n := by
            simp only [List.length_cons] at hlen; omega
          have hf2 : rest2.length + 1 ≤ f1 := by
            simp only [List.length_cons] at hf; omega
          by_cases he1 : c2 = delim
          · subst he1
            obtain ⟨s', hs', hv⟩ := ih rest2 hlen2 rest f1 (pushVal s3 c2)
                hok2 (by rw [pushVal]; exact hne3) hdrop3 hf2
            refine ⟨s', ?_, ?_⟩
            · simp [scanString, hrc, hrc3, Ne.symm hd1, hne3, hs']
            · rw [hv]
              simp [pushVal, hval3, hval2, decodeStr_bs]
          · by_cases he2 : c2 = 'n'
            · subst he2
              obtain ⟨s', hs', hv⟩ := ih rest2 hlen2 rest f1 (pushVal s3 '\n')
                  hok2 (by rw [pushVal]; exact hne3) hdrop3 hf2
              refine ⟨s', ?_, ?_⟩
              · simp [scanString, hrc, hrc3, Ne.symm hd1, hne3, he1, hs']
              · rw [hv]
                simp [pushVal, hval3, hval2, decodeStr_bs, he1]
            · by_cases he3 : c2 = '#'
              · subst he3
                obtain ⟨s', hs', hv⟩ := ih rest2 hlen2 rest f1 (pushVal s3 '#')
                    hok2 (by rw [pushVal]; exact hne3) hdrop3 hf2
                refine ⟨s', ?_, ?_⟩
                · simp [scanString, hrc, hrc3, Ne.symm hd1, hne3, he1, he2, hs']
                · rw [hv]
                  simp [pushVal, hval3, hval2, decodeStr_bs, he1, he2]
              · obtain ⟨s', hs', hv⟩ := ih rest2 hlen2 rest f1
                    (pushVal (pushVal s3 '\\') c2) hok2
                    (by rw [pushVal, pushVal]; exact hne3) hdrop3 hf2
                refine ⟨s', ?_, ?_⟩
                · simp [scanString, hrc, hrc3, Ne.symm hd1, hne3, he1, he2, he3, hs']
                · rw [hv]
                  simp [pushVal, hval3, hval2, decodeStr_bs, he1, he2, he3]
      · obtain ⟨hcd, hc0, hok2⟩ := okContent_cons delim c crest hc hok
        obtain ⟨s2, hrc, hlast2, _, _, hdrop2, hval2, _, _, _⟩ :=
          readchar_drop_cons s c (crest ++ delim :: rest) hne (by simpa using hdrop)
        have hne2 : s2.last_char ≠ '\x00' := by rw [hlast2]; exact hc0
        have hlen2 : crest.length ≤ n := by
          simp only [List.length_cons] at hlen; omega
        have hf2 : crest.length + 1 ≤ f1 := by
          simp only [List.length_cons] at hf; omega
        by_cases hch : c = '#'
        · subst hch
          obtain ⟨s', hs', hv⟩ := ih crest hlen2 rest f1 (pushVal s2 '\n')
              hok2 (by rw [pushVal]; exact hne2) hdrop2 hf2
          refine ⟨s', ?_, ?_⟩
          · simp [scanString, hrc, hcd, hc, hs']
          · rw [hv]
            simp [pushVal, hval2, decodeStr_cons delim '#' crest (by decide)]
        · obtain ⟨s', hs', hv⟩ := ih crest hlen2 rest f1 (pushVal s2 c)
              hok2 (by rw [pushVal]; exact hne2) hdrop2 hf2
          refine ⟨s', ?_, ?_⟩
          · simp [scanString, hrc, hcd, hc, hch, hs']
          · rw [hv]
            simp [pushVal, hval2, decodeStr_cons delim c crest hc, hch]

/-- C6: for every terminated string literal (either quote style), the
StringLiteral token's value is the decoded text without delimiters, where
decoding maps backslash+delimiter to the delimiter, backslash+n to a real
line feed, backslash+# to a literal #, any other backslash+character to the
two characters verbatim, and a raw unescaped # to a real line feed, keeping
every other character as-is (`decodeStr` states exactly that mapping). -/
theorem c6_string_decode :
    ∀ (delim : Char) (content rest : List Char) (f : Nat),
    (delim = '\"' ∨ delim = '\'') →
    okContent delim content = true →
    content.length + 2 ≤ f →
    ∃ s', readtok (f + 2) (initLexer (delim :: (content ++ delim :: rest))) =
        some (.ok (⟨.StringLiteral, 1, 1⟩, s')) ∧
      s'.last_value = decodeStr delim content := by
  intro delim content rest f hd hok hf
  have hd1 : delim ≠ '\\' := by rcases hd with rfl | rfl <;> decide
  have hd0 : delim ≠ '\x00' := by rcases hd with rfl | rfl <;> decide
  rw [readtok_init_quote f delim (content ++ delim :: rest) hd]
  obtain ⟨s', hs', hv⟩ := scanString_closed delim hd1 hd0 content.length content
      le_rfl rest (f + 1)
      (Lexer.mk (delim :: (content ++ delim :: rest)) 1 delim 1 1 true []
        ⟨.End, 1, 0⟩)
      hok hd0 (by simp) (by omega)
  rw [hs']
  refine ⟨_, rfl, ?_⟩
  simpa [emit] using hv

/-- Witness for C6 at the spec's example `"a\"b"` (value `a"b`). -/
theorem c6_witness :
    (('\"' : Char) = '\"' ∨ ('\"' : Char) = '\'') ∧
    okContent '\"' ['a', '\\', '\"', 'b'] = true ∧
    (['a', '\\', '\"', 'b'].length + 2 ≤ 6) ∧
    ∃ s', readtok (6 + 2)
        (initLexer ('\"' :: (['a', '\\', '\"', 'b'] ++ '\"' :: []))) =
        some (.ok (⟨.StringLiteral, 1, 1⟩, s')) ∧
      s'.last_value = decodeStr '\"' ['a', '\\', '\"', 'b'] :=
  ⟨Or.inl rfl, by decide, by decide,
   c6_string_decode '\"' ['a', '\\', '\"', 'b'] [] 6 (Or.inl rfl)
     (by decide) (by decide)⟩

/-- C3 (amended): when a string literal is opened (either quote style) and
end-of-input is reached before the closing delimiter, `readtok` returns an
End token only if the input ends immediately after a backslash (end-of-input
hit while reading the escaped character); in every other unterminated-string
case — for any well-formed interior, escape sequences included — it raises
the fatal "Reached EOF (lexer crash)" error instead. -/
theorem c3_unterminated_string_amended :
    ∀ (delim : Char) (content : List Char) (f : Nat),
    (delim = '\"' ∨ delim = '\'') →
    okContent delim content = true →
    content.length + 3 ≤ f →
    (∃ s', readtok (f + 2) (initLexer (delim :: (content ++ ['\\']))) =
        some (.ok (⟨.End, 1, 1⟩, s'))) ∧
    (∃ l co, readtok (f + 2) (initLexer (delim :: content)) =
        some (.error (.eofCrash l co))) := by
  intro delim content f hd hok hf
  have hd1 : delim ≠ '\\' := by rcases hd with rfl | rfl <;> decide
  have hd0 : delim ≠ '\x00' := by rcases hd with rfl | rfl <;> decide
  constructor
  · rw [readtok_init_quote f delim (content ++ ['\\']) hd]
    obtain ⟨s', hs'⟩ := scanString_open_escape delim hd1 hd0 content.length
        content le_rfl (f + 1)
        (Lexer.mk (delim :: (content ++ ['\\'])) 1 delim 1 1 true [] ⟨.End, 1, 0⟩)
        hok hd0 (by simp) (by omega)
    rw [hs']
    exact ⟨_, rfl⟩
  · rw [readtok_init_quote f delim content hd]
    obtain ⟨l, co, hs'⟩ := scanString_unterminated delim hd1 hd0 content.length
        content le_rfl (f + 1)
        (Lexer.mk (delim :: content) 1 delim 1 1 true [] ⟨.End, 1, 0⟩)
        hok hd0 (by simp) (by omega)
    rw [hs']
    exact ⟨l, co, rfl⟩

/-- Witness for C3's amended statement at the concrete inputs
`"a\nb\` (escape sequence inside, trailing backslash: End) and
`"a\nb` (escape sequence inside, no pending escape: fatal error). -/
theorem c3_witness :
    (('\"' : Char) = '\"' ∨ ('\"' : Char) = '\'') ∧
    okContent '\"' ['a', '\\', 'n', 'b'] = true ∧
    (['a', '\\', 'n', 'b'].length + 3 ≤ 7) ∧
    ((∃ s', readtok (7 + 2)
        (initLexer ('\"' :: (['a', '\\', 'n', 'b'] ++ ['\\']))) =
        some (.ok (⟨.End, 1, 1⟩, s'))) ∧
     (∃ l co, readtok (7 + 2) (initLexer ('\"' :: ['a', '\\', 'n', 'b'])) =
        some (.error (.eofCrash l co)))) :=
  ⟨Or.inl rfl, by decide, by decide,
   c3_unterminated_string_amended '\"' ['a', '\\', 'n', 'b'] 7 (Or.inl rfl)
     (by decide) (by decide)⟩

/-! ### Fuel adequacy: the scanning loops and the tail self-call terminate
within a concrete fuel bound computed from the remaining input length. -/

/-- Basic facts about a successful `readchar`: the buffer is unchanged, the
cursor never moves backwards, and a non-sentinel result means exactly one
character was consumed. -/
theorem readchar_facts (s : Lexer) (c : Char) (s' : Lexer)
    (h : readchar s = .ok (c, s')) :
    s'.source = s.source ∧ s.it ≤ s'.it ∧ s'.it ≤ s.it + 1 ∧
      (c ≠ '\x00' → s.it < s.source.length ∧ s'.it = s.it + 1) ∧
      s'.last_char = c := by
  unfold readchar at h
  split at h
  · simp at h
  · split at h
    · rename_i hlt
      simp only [Except.ok.injEq, Prod.mk.injEq] at h
      obtain ⟨rfl, rfl⟩ := h
      exact ⟨rfl, by simp, by simp, fun _ => ⟨hlt, rfl⟩, rfl⟩
    · simp only [Except.ok.injEq, Prod.mk.injEq] at h
      obtain ⟨rfl, rfl⟩ := h
      exact ⟨rfl, le_rfl, by simp, fun hc => absurd rfl hc, rfl⟩

/-- The whitespace loop preserves the buffer and never moves backwards. -/
theorem skipWs_facts :
    ∀ (f : Nat) (s s' : Lexer), skipWs f s = some (.ok s') →
    s'.source = s.source ∧ s.it ≤ s'.it := by
  intro f
  induction f with
  | zero => intro s s' h; simp [skipWs] at h
  | succ f ih =>
    intro s s' h
    unfold skipWs at h
    split at h
    · split at h
      · simp at h
      · rename_i c s1 hrc
        obtain ⟨hsrc, hle, _, _, _⟩ := readchar_facts s c s1 hrc
        split at h
        · simp only [Option.some.injEq, Except.ok.injEq] at h
          subst h
          exact ⟨hsrc, hle⟩
        · obtain ⟨hsrc1, hle1⟩ := ih s1 s' h
          exact ⟨hsrc1.trans hsrc, hle.trans hle1⟩
    · simp only [Option.some.injEq, Except.ok.injEq] at h
      subst h
      exact ⟨rfl, le_rfl⟩

/-- The line-comment loop preserves the buffer and never moves backwards. -/
theorem skipLine_facts :
    ∀ (f : Nat) (s s' : Lexer), skipLine f s = some (.ok s') →
    s'.source = s.source ∧ s.it ≤ s'.it := by
  intro f
  induction f with
  | zero => intro s s' h; simp [skipLine] at h
  | succ f ih =>
    intro s s' h
    unfold skipLine at h
    split at h
    · simp at h
    · rename_i c s1 hrc
      obtain ⟨hsrc, hle, _, _, _⟩ := readchar_facts s c s1 hrc
      split at h
      · simp only [Option.some.injEq, Except.ok.injEq] at h
        subst h
        exact ⟨hsrc, hle⟩
      · obtain ⟨hsrc1, hle1⟩ := ih s1 s' h
        exact ⟨hsrc1.trans hsrc, hle.trans hle1⟩

/-- The inner block-comment loop strictly advances the cursor (it ends on a
consumed `*`) and stays within the buffer. -/
theorem scanStar_facts :
    ∀ (f tl tc : Nat) (s s' : Lexer), scanStar f tl tc s = some (.ok s') →
    s'.source = s.source ∧ s.it < s'.it ∧ s'.it ≤ s.source.length := by
  intro f
  induction f with
  | zero => intro tl tc s s' h; simp [scanStar] at h
  | succ f ih =>
    intro tl tc s s' h
    unfold scanStar at h
    split at h
    · simp at h
    · rename_i c s1 hrc
      obtain ⟨hsrc, _, _, hadv, _⟩ := readchar_facts s c s1 hrc
      split at h
      · rename_i hstar
        simp only [Option.some.injEq, Except.ok.injEq] at h
        subst h
        obtain ⟨hlt, hit⟩ := hadv (by rw [hstar]; decide)
        exact ⟨hsrc, by omega, by omega⟩
      · split at h
        · simp at h
        · rename_i hstar hne
          have hc : c ≠ '\x00' := by
            obtain ⟨_, _, _, _, hlc⟩ := readchar_facts s c s1 hrc
            rw [← hlc]; exact hne
          obtain ⟨hlt, hit⟩ := hadv hc
          obtain ⟨hsrc1, hlt1, hle1⟩ := ih tl tc s1 s' h
          refine ⟨hsrc1.trans hsrc, by omega, ?_⟩
          rw [hsrc] at hle1
          omega

/-- The block-comment loop strictly advances the cursor. -/
theorem scanComment_facts :
    ∀ (f tl tc : Nat) (s s' : Lexer), scanComment f tl tc s = some (.ok s') →
    s'.source = s.source ∧ s.it < s'.it := by
  intro f
  induction f with
  | zero => intro tl tc s s' h; simp [scanComment] at h
  | succ f ih =>
    intro tl tc s s' h
    unfold scanComment at h
    split at h
    · simp at h
    · simp at h
    · rename_i s1 hstar
      obtain ⟨hsrc1, hlt1, _⟩ := scanStar_facts (f + 1) tl tc s s1 hstar
      split at h
      · simp at h
      · rename_i c s2 hrc
        obtain ⟨hsrc2, hle2, _, _, _⟩ := readchar_facts s1 c s2 hrc
        split at h
        · simp only [Option.some.injEq, Except.ok.injEq] at h
          subst h
          exact ⟨hsrc2.trans hsrc1, by omega⟩
        · obtain ⟨hsrc3, hlt3⟩ := ih tl tc s2 s' h
          exact ⟨(hsrc3.trans hsrc2).trans hsrc1, by omega⟩

/-- The whitespace loop always completes on fuel exceeding the remaining
input length. -/
theorem skipWs_total :
    ∀ (f : Nat) (s : Lexer), s.source.length - s.it < f →
    (skipWs f s).isSome = true := by
  intro f
  induction f with
  | zero => intro s h; omega
  | succ f ih =>
    intro s hf
    unfold skipWs
    split
    · rcases hrc : readchar s with e | ⟨c, s1⟩
      · simp
      · simp only []
        split
        · simp
        · rename_i hc
          apply ih
          obtain ⟨hsrc, _, _, hadv, _⟩ := readchar_facts s c s1 hrc
          obtain ⟨hlt, hit⟩ := hadv hc
          rw [hsrc, hit]
          omega
    · simp

/-- The line-comment loop always completes on fuel exceeding the remaining
input length. -/
theorem skipLine_total :
    ∀ (f : Nat) (s : Lexer), s.source.length - s.it < f →
    (skipLine f s).isSome = true := by
  intro f
  induction f with
  | zero => intro s h; omega
  | succ f ih =>
    intro s hf
    unfold skipLine
    rcases hrc : readchar s with e | ⟨c, s1⟩
    · simp
    · simp only []
      split
      · simp
      · rename_i hc
        have hc0 : c ≠ '\x00' := by
          simp only [is_line_end, Bool.or_eq_true, decide_eq_true_eq] at hc
          exact fun he => hc (Or.inr he)
        apply ih
        obtain ⟨hsrc, _, _, hadv, _⟩ := readchar_facts s c s1 hrc
        obtain ⟨hlt, hit⟩ := hadv hc0
        rw [hsrc, hit]
        omega

/-- The inner block-comment loop always completes on fuel exceeding the
remaining input length. -/
theorem scanStar_total :
    ∀ (f tl tc : Nat) (s : Lexer), s.source.length - s.it < f →
    (scanStar f tl tc s).isSome = true := by
  intro f
  induction f with
  | zero => intro tl tc s h; omega
  | succ f ih =>
    intro tl tc s hf
    unfold scanStar
    rcases hrc : readchar s with e | ⟨c, s1⟩
    · simp
    · simp only []
      split
      · simp
      · split
        · simp
        · rename_i hstar hne
          obtain ⟨hsrc, _, _, hadv, hlc⟩ := readchar_facts s c s1 hrc
          have hc0 : c ≠ '\x00' := by rw [← hlc]; exact hne
          obtain ⟨hlt, hit⟩ := hadv hc0
          apply ih
          rw [hsrc, hit]
          omega

/-- The block-comment loop always completes on fuel exceeding the remaining
input length by two. -/
theorem scanComment_total :
    ∀ (f tl tc : Nat) (s : Lexer), s.source.length - s.it + 1 < f →
    (scanComment f tl tc s).isSome = true := by
  intro f
  induction f with
  | zero => intro tl tc s h; omega
  | succ f ih =>
    intro tl tc s hf
    unfold scanComment
    rcases hstar : scanStar (f + 1) tl tc s with _ | r
    · have := scanStar_total (f + 1) tl tc s (by omega)
      simp [hstar] at this
    · rcases r with e | s1
      · simp [hstar]
      · simp only [hstar]
        rcases hrc : readchar s1 with e | ⟨c, s2⟩
        · simp
        · simp only []
          split
          · simp
          · obtain ⟨hsrc1, hlt1, hle1⟩ := scanStar_facts (f + 1) tl tc s s1 hstar
            obtain ⟨hsrc2, hle2, _, _, _⟩ := readchar_facts s1 c s2 hrc
            apply ih
            rw [hsrc2, hsrc1]
            omega

/-- The string loop always completes; the flagged measure accounts for the
final non-advancing read of the sentinel. -/
theorem scanString_total :
    ∀ (f : Nat) (delim : Char) (s : Lexer),
    2 * (s.source.length - s.it) + (if s.last_char = '\x00' then 0 else 1) < f →
    (scanString f delim s).isSome = true := by
  intro f
  induction f with
  | zero => intro delim s h; omega
  | succ f ih =>
    intro delim s hf
    have hflag : s.last_char ≠ '\x00' →
        2 * (s.source.length - s.it) + 1 < f + 1 := by
      intro hne
      rw [if_neg hne] at hf
      omega
    unfold scanString
    rcases hrc : readchar s with e | ⟨c, s1⟩
    · simp
    · have hsne : s.last_char ≠ '\x00' := by
        intro he
        unfold readchar at hrc
        rw [if_pos he] at hrc
        exact absurd hrc (by simp)
      have hf1 := hflag hsne
      obtain ⟨hsrc1, hle1a, hle1b, hadv1, hlc1⟩ := readchar_facts s c s1 hrc
      simp only []
      split
      · simp
      · split
        · rcases hrc2 : readchar s1 with e | ⟨c2, s2⟩
          · simp
          · simp only []
            split
            · simp
            · rename_i hbs hne2
              obtain ⟨hsrc2, _, _, hadv2, hlc2⟩ := readchar_facts s1 c2 s2 hrc2
              have hc20 : c2 ≠ '\x00' := by rw [← hlc2]; exact hne2
              obtain ⟨hlt2, hit2⟩ := hadv2 hc20
              have hc10 : c ≠ '\x00' := by rw [hbs]; decide
              obtain ⟨hlt1, hit1⟩ := hadv1 hc10
              have hkey : ∀ x : Char,
                  2 * (s2.source.length - s2.it) +
                    (if (pushVal s2 x).last_char = '\x00' then 0 else 1) < f := by
                intro x
                have hpv : (pushVal s2 x).last_char = s2.last_char := rfl
                rw [hpv]
                rw [hsrc2, hsrc1, hit2, hit1]
                rw [hsrc1] at hlt2
                split <;> omega
              split
              · exact ih delim _ (hkey _)
              · split
                · exact ih delim _ (hkey _)
                · split
                  · exact ih delim _ (hkey '#')
                  · exact ih delim _ (hkey c2)
        · have hkey : ∀ x : Char,
              2 * (s1.source.length - s1.it) +
                (if (pushVal s1 x).last_char = '\x00' then 0 else 1) < f := by
            intro x
            have hpv : (pushVal s1 x).last_char = s1.last_char := rfl
            rw [hpv, hlc1, hsrc1]
            by_cases hc0 : c = '\x00'
            · rw [if_pos hc0]
              omega
            · obtain ⟨hlt1, hit1⟩ := hadv1 hc0
              rw [hit1]
              split <;> omega
          split
          · exact ih delim _ (hkey _)
          · exact ih delim _ (hkey _)

/-- The real-literal loop always completes on fuel exceeding the remaining
input length. -/
theorem scanNum_total :
    ∀ (f : Nat) (s : Lexer), s.source.length - s.it < f →
    (scanNum f s).isSome = true := by
  intro f
  induction f with
  | zero => intro s h; omega
  | succ f ih =>
    intro s hf
    unfold scanNum
    rcases hrc : readchar (pushVal s s.last_char) with e | ⟨c, s1⟩
    · simp
    · simp only []
      split
      · rename_i hnum
        have hc0 : c ≠ '\x00' := by
          intro he; rw [he] at hnum; exact absurd hnum (by decide)
        obtain ⟨hsrc, _, _, hadv, _⟩ := readchar_facts _ c s1 hrc
        obtain ⟨hlt, hit⟩ := hadv hc0
        apply ih
        rw [hsrc, hit]
        simp only [pushVal] at hlt ⊢
        omega
      · simp

/-- The identifier loop always completes on fuel exceeding the remaining
input length. -/
theorem scanIdent_total :
    ∀ (f : Nat) (s : Lexer), s.source.length - s.it < f →
    (scanIdent f s).isSome = true := by
  intro f
  induction f with
  | zero => intro s h; omega
  | succ f ih =>
    intro s hf
    unfold scanIdent
    rcases hrc : readchar (pushVal s s.last_char) with e | ⟨c, s1⟩
    · simp
    · simp only []
      split
      · rename_i hid
        have hc0 : c ≠ '\x00' := by
          intro he; rw [he] at hid; exact absurd hid (by decide)
        obtain ⟨hsrc, _, _, hadv, _⟩ := readchar_facts _ c s1 hrc
        obtain ⟨hlt, hit⟩ := hadv hc0
        apply ih
        rw [hsrc, hit]
        simp only [pushVal] at hlt ⊢
        omega
      · simp

/-- The fall-through dispatcher always completes on fuel at least twice the
remaining input length plus two. -/
theorem dispatch_total (f tl tc : Nat) (s : Lexer)
    (hf : 2 * (s.source.length - s.it) + 2 ≤ f) :
    (dispatch f tl tc s).isSome = true := by
  unfold dispatch
  split
  · rcases hsc : scanString f s.last_char (clearVal s) with _ | r
    · have := scanString_total f s.last_char (clearVal s)
        (by simp only [clearVal]; split <;> omega)
      simp [hsc] at this
    · rcases r with e | ⟨o, s1⟩
      · simp [hsc]
      · rcases o <;> simp [hsc]
  · split
    · simp
    · split
      · split <;> simp
      · split
        · rcases hsn : scanNum f (clearVal s) with _ | r
          · have := scanNum_total f (clearVal s) (by simp only [clearVal]; omega)
            simp [hsn] at this
          · rcases r with e | s1 <;> simp [hsn]
        · split
          · rcases hsi : scanIdent f (clearVal s) with _ | r
            · have := scanIdent_total f (clearVal s) (by simp only [clearVal]; omega)
              simp [hsi] at this
            · rcases r with e | s1 <;> simp [hsi]
          · simp

/-- `readtok` always completes on fuel at least twice the remaining input
length plus three: every loop and the tail self-call after a block comment
fit in that budget. -/
theorem readtok_total :
    ∀ (f : Nat) (s : Lexer), 2 * (s.source.length - s.it) + 3 ≤ f →
    (readtok f s).isSome = true := by
  intro f
  induction f with
  | zero => intro s h; omega
  | succ f ih =>
    intro s hf
    unfold readtok
    split
    · simp
    · rcases hstep : (if s.current_parsed = true then (readchar s).map Prod.snd
          else .ok { s with current_parsed := true }) with e | s1
      · simp [hstep]
      · have hs1 : s1.source = s.source ∧ s.it ≤ s1.it := by
          split at hstep
          · rcases hrc : readchar s with e | ⟨c, s1'⟩
            · rw [hrc] at hstep; exact absurd hstep (by simp [Except.map])
            · rw [hrc] at hstep
              simp only [Except.map, Except.ok.injEq] at hstep
              subst hstep
              obtain ⟨hsrc, hle, _, _, _⟩ := readchar_facts s c s1' hrc
              exact ⟨hsrc, hle⟩
          · simp only [Except.ok.injEq] at hstep
            subst hstep
            exact ⟨rfl, le_rfl⟩
        obtain ⟨hsrc1, hle1⟩ := hs1
        simp only [hstep]
        split
        · simp
        · rcases hws : skipWs f s1 with _ | r
          · have := skipWs_total f s1 (by rw [hsrc1]; omega)
            simp [hws] at this
          · rcases r with e | s2
            · simp [hws]
            · obtain ⟨hsrc2, hle2⟩ := skipWs_facts f s1 s2 hws
              simp only [hws]
              split
              · simp
              · split
                · rcases hrc : readchar s2 with e | ⟨c, s3⟩
                  · simp
                  · obtain ⟨hsrc3, hle3, _, hadv3, hlc3⟩ := readchar_facts s2 c s3 hrc
                    simp only []
                    split
                    · rcases hsl : skipLine f s3 with _ | r
                      · have := skipLine_total f s3
                          (by rw [hsrc3, hsrc2, hsrc1]; omega)
                        simp [hsl] at this
                      · rcases r with e | s4
                        · simp [hsl]
                        · obtain ⟨hsrc4, hle4⟩ := skipLine_facts f s3 s4 hsl
                          simp only [hsl]
                          split
                          · simp
                          · apply dispatch_total
                            rw [hsrc4, hsrc3, hsrc2, hsrc1]
                            omega
                    · split
                      · rename_i hns hcs
                        have hc0 : c ≠ '\x00' := by rw [hcs]; decide
                        obtain ⟨hlt3, hit3⟩ := hadv3 hc0
                        rcases hcm : scanComment f s2.line s2.col s3 with _ | r
                        · have := scanComment_total f s2.line s2.col s3 (by
                            rw [hsrc3, hsrc2, hsrc1]
                            rw [hsrc2, hsrc1] at hlt3
                            omega)
                          simp [hcm] at this
                        · rcases r with e | s4
                          · simp [hcm]
                          · obtain ⟨hsrc4, hlt4⟩ := scanComment_facts f s2.line s2.col s3 s4 hcm
                            simp only [hcm]
                            apply ih
                            rw [hsrc4, hsrc3, hsrc2, hsrc1]
                            rw [hsrc2, hsrc1] at hlt3
                            omega
                      · apply dispatch_total
                        simp only []
                        rw [hsrc3, hsrc2, hsrc1]
                        omega
                · apply dispatch_total
                  rw [hsrc2, hsrc1]
                  omega

/-- C10: for every source buffer and lexer state, `readtok` terminates,
returning exactly one token or raising a fatal error, within the concrete
fuel bound `2*(remaining input) + 3`; this covers the whitespace loop, the
comment and string scanning loops, the numeric and identifier loops, and
the tail self-call after a block comment. -/
theorem c10_termination (s : Lexer) :
    ∃ r : Except LexErr (Token × Lexer),
      readtok (2 * (s.source.length - s.it) + 3) s = some r := by
  have h := readtok_total (2 * (s.source.length - s.it) + 3) s le_rfl
  exact Option.isSome_iff_exists.mp h

/-- Every table entry whose kind is `While`, `Repeat` or `ElseIf` has a
pattern of at least five characters, and the table scan only returns
entries whose pattern is a prefix of the lookahead; on a lookahead of at
most four characters those kinds can therefore never be produced. -/
theorem findMatch_short (p pat : List Char) (ty : TokenType)
    (h : findMatch p = some (pat, ty)) (hlen : p.length ≤ 4) :
    ty ≠ .While ∧ ty ≠ .Repeat ∧ ty ≠ .ElseIf := by
  have hmem : (pat, ty) ∈ basic_matches := List.mem_of_find?_eq_some h
  have hpre : pat.isPrefixOf p = true := by
    simpa using List.find?_some h
  have hple : pat.length ≤ 4 :=
    le_trans (List.IsPrefix.length_le (List.isPrefixOf_iff_prefix.mp hpre)) hlen
  have hkey : ∀ e ∈ basic_matches,
      (e.2 = TokenType.While ∨ e.2 = TokenType.Repeat ∨ e.2 = TokenType.ElseIf) →
      5 ≤ e.1.length := by decide
  refine ⟨?_, ?_, ?_⟩ <;>
    · intro he
      have h5 := hkey (pat, ty) hmem (by simp [he])
      simp at h5
      omega

/-- No token produced by the fall-through dispatcher has kind `While`,
`Repeat` or `ElseIf`. -/
theorem dispatch_no_long (f tl tc : Nat) (s : Lexer) (t : Token) (s' : Lexer)
    (h : dispatch f tl tc s = some (.ok (t, s'))) :
    t.type ≠ .While ∧ t.type ≠ .Repeat ∧ t.type ≠ .ElseIf := by
  unfold dispatch at h
  split at h
  · split at h
    · simp at h
    · simp at h
    · simp only [emit, Option.some.injEq, Except.ok.injEq, Prod.mk.injEq] at h
      obtain ⟨h1, _⟩ := h; subst h1; simp
    · simp only [emit, Option.some.injEq, Except.ok.injEq, Prod.mk.injEq] at h
      obtain ⟨h1, _⟩ := h; subst h1; simp
  · split at h
    · simp at h
    · split at h
      · rename_i pat ty hfm
        split at h
        · simp at h
        · have hlen : (List.take 4 (List.drop (s.it - 1) s.source)).length ≤ 4 := by
            simp [List.length_take]
          have hshort := findMatch_short _ pat ty hfm hlen
          simp only [emit, Option.some.injEq, Except.ok.injEq, Prod.mk.injEq] at h
          obtain ⟨h1, _⟩ := h; subst h1
          simpa using hshort
      · split at h
        · split at h
          · simp at h
          · simp at h
          · simp only [emit, Option.some.injEq, Except.ok.injEq, Prod.mk.injEq] at h
            obtain ⟨h1, _⟩ := h; subst h1; simp
        · split at h
          · split at h
            · simp at h
            · simp at h
            · simp only [emit, Option.some.injEq, Except.ok.injEq, Prod.mk.injEq] at h
              obtain ⟨h1, _⟩ := h; subst h1; simp
          · simp at h

/-- No `readtok` call ever returns a token of kind `While`, `Repeat` or
`ElseIf` (patterns longer than the 4-character lookahead cannot match). -/
theorem readtok_no_long :
    ∀ (f : Nat) (s : Lexer) (t : Token) (s' : Lexer),
    readtok f s = some (.ok (t, s')) →
    t.type ≠ .While ∧ t.type ≠ .Repeat ∧ t.type ≠ .ElseIf := by
  intro f
  induction f with
  | zero => intro s t s' h; simp [readtok] at h
  | succ f ih =>
    intro s t s' h
    unfold readtok at h
    split at h
    · simp only [emit, Option.some.injEq, Except.ok.injEq, Prod.mk.injEq] at h
      obtain ⟨h1, _⟩ := h; subst h1; simp
    · split at h
      · simp at h
      · split at h
        · simp only [emit, Option.some.injEq, Except.ok.injEq, Prod.mk.injEq] at h
          obtain ⟨h1, _⟩ := h; subst h1; simp
        · split at h
          · simp at h
          · simp at h
          · split at h
            · simp only [emit, Option.some.injEq, Except.ok.injEq, Prod.mk.injEq] at h
              obtain ⟨h1, _⟩ := h; subst h1; simp
            · split at h
              · split at h
                · simp at h
                · split at h
                  · split at h
                    · simp at h
                    · simp at h
                    · split at h
                      · simp only [emit, Option.some.injEq, Except.ok.injEq,
                          Prod.mk.injEq] at h
                        obtain ⟨h1, _⟩ := h; subst h1; simp
                      · exact dispatch_no_long f _ _ _ t s' h
                  · split at h
                    · split at h
                      · simp at h
                      · simp at h
                      · exact ih _ t s' h
                    · exact dispatch_no_long f _ _ _ t s' h
              · exact dispatch_no_long f _ _ _ t s' h

/-- C4: the fixed-pattern matcher compares entries against a 4-character
lookahead, so patterns longer than 4 characters (`while`, `repeat`,
`else if`) can never match: no input ever produces a While, Repeat or
ElseIf token, and the standalone lexemes `while` and `repeat` lex as
Identifier tokens with those verbatim values. -/
theorem c4_no_long_patterns :
    (∀ (f : Nat) (s : Lexer) (t : Token) (s' : Lexer),
      readtok f s = some (.ok (t, s')) →
      t.type ≠ .While ∧ t.type ≠ .Repeat ∧ t.type ≠ .ElseIf) ∧
    lexN 16 2 (initLexer "while".data) =
      [(.Identifier, "while".data), (.End, "while".data)] ∧
    lexN 16 2 (initLexer "repeat".data) =
      [(.Identifier, "repeat".data), (.End, "repeat".data)] :=
  ⟨readtok_no_long, by decide, by decide⟩

/-- Witness for C4's general statement at the concrete input `+`. -/
theorem c4_witness :
    (readtok 3 (initLexer "+".data) =
      some (.ok (⟨.Plus, 1, 1⟩, Lexer.mk ['+'] 1 '+' 1 1 true [] ⟨.Plus, 1, 1⟩))) ∧
    ((⟨.Plus, 1, 1⟩ : Token).type ≠ .While ∧
      (⟨.Plus, 1, 1⟩ : Token).type ≠ .Repeat ∧
      (⟨.Plus, 1, 1⟩ : Token).type ≠ .ElseIf) :=
  ⟨rfl,
   c4_no_long_patterns.1 3 (initLexer "+".data) ⟨.Plus, 1, 1⟩
     (Lexer.mk ['+'] 1 '+' 1 1 true [] ⟨.Plus, 1, 1⟩) rfl⟩

/-- C9: when the pending character is a numeral character and no fixed
pattern matched the lookahead, `readtok` consumes the maximal run of numeral
characters and returns a single RealLiteral token at the position of the
scan start whose value is the verbatim consumed text, with no
well-formedness validation; in particular `1.2.3` lexes as one RealLiteral
token with value `1.2.3`. -/
theorem c9_real_literal :
    (∀ (f : Nat) (s : Lexer), s.current_parsed = false →
      is_numeral s.last_char = true →
      findMatch (peekstr s) = none →
      ((s.source.drop s.it).takeWhile is_numeral).length + 2 ≤ f →
      ∃ s', readtok (f + 1) s = some (.ok (⟨.RealLiteral, s.line, s.col⟩, s')) ∧
        s'.last_value = s.last_char :: (s.source.drop s.it).takeWhile is_numeral) ∧
    lexN 8 2 (initLexer "1.2.3".data) =
      [(.RealLiteral, "1.2.3".data), (.End, "1.2.3".data)] := by
  constructor
  · intro f s hcp hn hm hf
    obtain ⟨hne, hw, hslash, hq1, hq2, hdollar⟩ := is_numeral_facts _ hn
    obtain ⟨f1, rfl⟩ : ∃ f1, f = f1 + 1 := ⟨f - 1, by omega⟩
    obtain ⟨s', hs', hv⟩ :=
      scanNum_run (s.source.drop s.it) (f1 + 1)
        (clearVal { s with current_parsed := true }) rfl hne (by omega)
    refine ⟨{ s' with
                current_parsed := false,
                last_token := ⟨.RealLiteral, s.line, s.col⟩ }, ?_, ?_⟩
    · have hw1 : is_whitespace ({ s with current_parsed := true } : Lexer).last_char = false := hw
      simp only [peekstr] at hm
      simp only [clearVal] at hs'
      simp only [readtok, dispatch, hcp, Bool.false_eq_true, if_false,
        skipWs_no f1 _ hw1, emit]
      simp [hne, hslash, hq1, hq2, hdollar, hm, hs', hn, peekstr, clearVal]
    · simp [hv, clearVal]
  · decide

/-- Witness for C9's general statement at a mid-scan state of `1.2.3`. -/
theorem c9_witness :
    ((Lexer.mk "1.2.3".data 1 '1' 1 1 false [] ⟨.End, 1, 0⟩).current_parsed
        = false) ∧
    (is_numeral (Lexer.mk "1.2.3".data 1 '1' 1 1 false [] ⟨.End, 1, 0⟩).last_char
        = true) ∧
    (findMatch (peekstr (Lexer.mk "1.2.3".data 1 '1' 1 1 false [] ⟨.End, 1, 0⟩))
        = none) ∧
    ((((Lexer.mk "1.2.3".data 1 '1' 1 1 false [] ⟨.End, 1, 0⟩).source.drop
          1).takeWhile is_numeral).length + 2 ≤ 7) ∧
    ∃ s', readtok (7 + 1) (Lexer.mk "1.2.3".data 1 '1' 1 1 false [] ⟨.End, 1, 0⟩)
        = some (.ok (⟨.RealLiteral, 1, 1⟩, s')) ∧
      s'.last_value = "1.2.3".data :=
  ⟨rfl, by decide, by decide, by decide,
   c9_real_literal.1 7 _ rfl (by decide) (by decide) (by decide)⟩

/-- C1: the property fails on the shipped code.  The table lists `<` before
`<=` and `>` before `>=`, so the two-character relational operators are
shadowed and lex as two adjacent single-character tokens; `<<=` lexes as
three tokens; and for `/=` the comment check consumes the `/` so the
lookahead only sees `=`, which is then even emitted twice because
`_current_parsed` stays false after a table match.  This theorem evaluates
the lexer at those inputs. -/
theorem c1_compound_shadowing :
    lexN 8 3 (initLexer "<=".data) =
      [(.Inferior, []), (.Equal, []), (.End, [])] ∧
    lexN 8 3 (initLexer ">=".data) =
      [(.Superior, []), (.Equal, []), (.End, [])] ∧
    lexN 8 4 (initLexer "<<=".data) =
      [(.Inferior, []), (.Inferior, []), (.Equal, []), (.End, [])] ∧
    lexN 8 4 (initLexer ">>=".data) =
      [(.Superior, []), (.Superior, []), (.Equal, []), (.End, [])] ∧
    lexN 8 3 (initLexer "/=".data) =
      [(.Equal, []), (.Equal, []), (.End, [])] := by
  decide

/-- C2: the property fails on the shipped code.  The fixed-pattern matcher
has no word-boundary check, so on input `ifx` the entry `"if"` matches the
lookahead and the code emits the keyword token `If` followed by a separate
`Identifier` token with value `x`.  This theorem evaluates the lexer at that
input. -/
theorem c2_keyword_no_word_boundary :
    lexN 8 3 (initLexer "ifx".data) =
      [(.If, []), (.Identifier, ['x']), (.End, ['x'])] := by
  decide

/-- C5: on `/* x` (end-of-input inside the inner scan-for-`*` loop) the code
does raise UnterminatedComment at the comment's starting line/column, but
when the input ends right after a `*` that is not followed by `/` (input
`/**`), the outer loop re-enters the inner loop with the sentinel already
observed and `readchar` raises the "Reached EOF (lexer crash)" error at the
current position instead.  This theorem evaluates both inputs. -/
theorem c5_unterminated_comment_eval :
    readtok 16 (initLexer "/* x".data) =
      some (.error (.unterminatedComment 1 1)) ∧
    readtok 16 (initLexer "/**".data) =
      some (.error (.eofCrash 1 3)) :=
  ⟨rfl, rfl⟩

/-- C3 counterexample: on the unterminated string `"a` the scanner does not
return an End token; the string loop appends the null read at end-of-input
to the value and the next `readchar` raises the fatal
"Reached EOF (lexer crash)" error. -/
theorem c3_counterexample :
    readtok 8 (initLexer ['\"', 'a']) = some (.error (.eofCrash 1 2)) := rfl

/-- C7: once the end-of-input sentinel has been observed, every later
`readtok` call returns an End token at the current position and never
raises an error, across arbitrarily many consecutive calls. -/
theorem c7_end_idempotent (fuel n : Nat) (s : Lexer)
    (h : s.last_char = '\x00') :
    ∃ s', iterTok (fuel + 1) n s = some (.ok (⟨.End, s.line, s.col⟩, s')) ∧
      s'.last_char = '\x00' ∧ s'.line = s.line ∧ s'.col = s.col := by
  induction n generalizing s with
  | zero =>
    exact ⟨{ s with last_token := ⟨.End, s.line, s.col⟩ },
           by simp [iterTok, readtok_eof_step fuel s h], h, rfl, rfl⟩
  | succ n ih =>
    obtain ⟨s', h1, h2, h3, h4⟩ :=
      ih { s with last_token := ⟨.End, s.line, s.col⟩ } h
    exact ⟨s', by simp [iterTok, readtok_eof_step fuel s h, h1], h2, h3, h4⟩

/-- Witness for C7 at a concrete post-end state. -/
theorem c7_witness :
    (Lexer.mk ['a'] 1 '\x00' 4 7 true [] ⟨.End, 1, 0⟩).last_char = '\x00' ∧
    ∃ s', iterTok 1 2 (Lexer.mk ['a'] 1 '\x00' 4 7 true [] ⟨.End, 1, 0⟩) =
        some (.ok (⟨.End, 4, 7⟩, s')) ∧
      s'.last_char = '\x00' ∧ s'.line = 4 ∧ s'.col = 7 :=
  ⟨rfl, c7_end_idempotent 0 2 _ rfl⟩

/-- C8: whenever `readchar` consumes a character (the sentinel not yet
observed, a character available), consuming a line feed increments the line
counter and resets the column to zero, and consuming any other character
increments the column by one and leaves the line unchanged. -/
theorem c8_readchar_line_col (s : Lexer)
    (h1 : s.last_char ≠ '\x00') (h2 : s.it < s.source.length) :
    ∃ c s', readchar s = .ok (c, s') ∧ s.source.get? s.it = some c ∧
      (c = '\n' → s'.line = s.line + 1 ∧ s'.col = 0) ∧
      (c ≠ '\n' → s'.col = s.col + 1 ∧ s'.line = s.line) := by
  refine ⟨s.source.get ⟨s.it, h2⟩,
    { s with
        last_char := s.source.get ⟨s.it, h2⟩,
        it := s.it + 1,
        line := if s.source.get ⟨s.it, h2⟩ = '\n' then s.line + 1 else s.line,
        col := if s.source.get ⟨s.it, h2⟩ = '\n' then 0 else s.col + 1 },
    ?_, ?_, ?_, ?_⟩
  · unfold readchar
    rw [if_neg h1, dif_pos h2]
  · simp [List.get?_eq_get h2]
  · intro hc; simp only [List.get_eq_getElem] at hc; simp [hc]
  · intro hc; simp only [List.get_eq_getElem] at hc; simp [hc]

/-- Witness for C8 on both branches (a line feed and a plain character). -/
theorem c8_witness :
    ((initLexer ['\n', 'b']).last_char ≠ '\x00' ∧
     (initLexer ['\n', 'b']).it < (initLexer ['\n', 'b']).source.length ∧
     ∃ c s', readchar (initLexer ['\n', 'b']) = .ok (c, s') ∧
       (initLexer ['\n', 'b']).source.get? (initLexer ['\n', 'b']).it = some c ∧
       (c = '\n' → s'.line = (initLexer ['\n', 'b']).line + 1 ∧ s'.col = 0) ∧
       (c ≠ '\n' → s'.col = (initLexer ['\n', 'b']).col + 1 ∧
         s'.line = (initLexer ['\n', 'b']).line)) ∧
    ((initLexer ['b']).last_char ≠ '\x00' ∧
     (initLexer ['b']).it < (initLexer ['b']).source.length ∧
     ∃ c s', readchar (initLexer ['b']) = .ok (c, s') ∧
       (initLexer ['b']).source.get? (initLexer ['b']).it = some c ∧
       (c = '\n' → s'.line = (initLexer ['b']).line + 1 ∧ s'.col = 0) ∧
       (c ≠ '\n' → s'.col = (initLexer ['b']).col + 1 ∧
         s'.line = (initLexer ['b']).line)) :=
  ⟨⟨by decide, by decide, c8_readchar_line_col _ (by decide) (by decide)⟩,
   ⟨by decide, by decide, c8_readchar_line_col _ (by decide) (by decide)⟩⟩

end Gmsc

